import Mathlib

/-!
Verification of the mini-redis framing layer (`src/cmd/connection.rs`).

The repository ships a single source file: the `Connection` type with
`new`, `read_frame`, `write_frame` and `parse_frame`.  The frame model
(`Frame::check`, `Frame::parse`) and `write_decimal` are referenced by that
file but their code is not part of the repository sources, so they are
modelled from the specification (section 4.1 and section 6 of spec.md);
every such definition carries a doc comment starting with
`Modelled from the spec:`.

Bytes are modelled as `Nat` values (the relevant byte constants:
43 is the plus sign, 45 the minus sign, 58 the colon, 36 the dollar sign,
42 the asterisk, 13 CR, 10 LF, 48 to 57 the ASCII digits).  Rust `String`
payloads are modelled by their UTF-8 byte lists.
-/

/-- The `Frame` enum from `src/cmd/connection.rs` (also the frame model of
the spec, section 3): Simple, Error, Integer, Bulk, Null, Array.  Text and
bulk payloads are byte lists; the Integer payload is a `u64`, modelled as a
`Nat` (well-formed values are below `2 ^ 64`). -/
inductive Frame where
  | simple (s : List Nat)
  | error (s : List Nat)
  | integer (n : Nat)
  | bulk (b : List Nat)
  | null
  | array (elems : List Frame)

/-- Discriminator for the Array variant of `Frame`. -/
def Frame.isArray : Frame → Bool
  | .array _ => true
  | _ => false

/-- The data-model invariant of spec section 3: Simple and Error text never
contains a CR or LF byte, and integer payloads fit in a `u64`.  A Bulk
payload length also fits in a `u64` (in Rust it is a `usize`).  Array
payloads are handled by a separate side condition in the theorems that use
this predicate, so they are not constrained here. -/
def frameWF : Frame → Bool
  | .simple s => decide (13 ∉ s) && decide (10 ∉ s)
  | .error s => decide (13 ∉ s) && decide (10 ∉ s)
  | .integer n => decide (n < 2 ^ 64)
  | .bulk b => decide (b.length < 2 ^ 64)
  | .null => true
  | .array _ => true

/-- Recursion core for rendering a `Nat` in decimal: `decDigitsGo fuel n acc`
prepends the base-10 digits of `n` (values below 10, most significant first)
to `acc`.  The fuel argument only bounds the recursion; `fuel = n` is always
sufficient. -/
def decDigitsGo : Nat → Nat → List Nat → List Nat
  | 0, n, acc => n :: acc
  | fuel + 1, n, acc =>
    if n < 10 then n :: acc else decDigitsGo fuel (n / 10) ((n % 10) :: acc)

/-- Modelled from the spec: the decimal rendering used by `write_decimal`
(not present under src/): the value as base-10 ASCII digits, no sign, a
single digit 0 for zero (spec sections 4.3 and 6). -/
def decDigits (n : Nat) : List Nat :=
  (decDigitsGo n n []).map (fun d => d + 48)

/-- An ASCII decimal digit byte. -/
def isDigit (d : Nat) : Bool := 48 ≤ d && d ≤ 57

/-- Numeric value of a list of ASCII digit bytes, base 10. -/
def digitsVal (ds : List Nat) : Nat :=
  ds.foldl (fun a d => a * 10 + (d - 48)) 0

/-- Modelled from the spec: numeric parsing for frame headers (not present
under src/): digits only, base 10, no sign; fails on a non-digit byte, on an
empty field, and on `u64` overflow (spec section 4.1). -/
def parseU64 (ds : List Nat) : Option Nat :=
  if ds ≠ [] ∧ ds.all isDigit ∧ digitsVal ds < 2 ^ 64 then some (digitsVal ds)
  else none

/-- Modelled from the spec: the line scanner of the frame model (not present
under src/).  Finds the first two-byte CR LF sequence and splits the input
into the line before it and the remainder after it; `none` when no full
CR LF terminated line is available yet.  A lone LF is not a terminator
(spec section 6). -/
def getLine : List Nat → Option (List Nat × List Nat)
  | [] => none
  | [_] => none
  | b :: c :: rest =>
    if b = 13 ∧ c = 10 then some ([], rest)
    else
      match getLine (c :: rest) with
      | some (line, rem) => some (b :: line, rem)
      | none => none

/-- Frame-model errors (spec section 7): `incomplete` signals that more
bytes are needed and is not a true failure; `other` is a fatal protocol
error carrying a message. -/
inductive FrameError where
  | incomplete
  | other (msg : String)
deriving DecidableEq, Repr

/-- Modelled from the spec: the scanning core shared by `Frame.check` and
`Frame.parse` (neither is present under src/; spec section 4.1 describes
their common input-output behaviour, with check returning only the end
offset and parse the materialised value).  `scanF fuel n bytes` scans `n`
consecutive frames from the start of `bytes` and returns the parsed frames
together with the total number of bytes they occupy.  For each variant it
validates the sigil byte, locates the CR LF terminated header line, parses
declared lengths in decimal, and recurses for Array elements.  The fuel
argument bounds the recursion; running out of fuel means the scan budget
was exceeded and is reported as `incomplete`; the canonical fuel
`bytes.length + 1` used by `Frame.check` and `Frame.parse` is sufficient
for every input, since each frame occupies at least three bytes. -/
def scanF : Nat → Nat → List Nat → Except FrameError (List Frame × Nat)
  | 0, _, _ => .error .incomplete
  | _ + 1, 0, _ => .ok ([], 0)
  | fuel + 1, n + 1, bytes =>
    match bytes with
    | [] => .error .incomplete
    | b :: rest =>
      if b = 43 then
        match getLine rest with
        | none => .error .incomplete
        | some (line, after) =>
          match scanF fuel n after with
          | .error e => .error e
          | .ok (fs, k) => .ok (Frame.simple line :: fs, (1 + (line.length + 2)) + k)
      else if b = 45 then
        match getLine rest with
        | none => .error .incomplete
        | some (line, after) =>
          match scanF fuel n after with
          | .error e => .error e
          | .ok (fs, k) => .ok (Frame.error line :: fs, (1 + (line.length + 2)) + k)
      else if b = 58 then
        match getLine rest with
        | none => .error .incomplete
        | some (line, after) =>
          match parseU64 line with
          | none => .error (.other "invalid frame format")
          | some v =>
            match scanF fuel n after with
            | .error e => .error e
            | .ok (fs, k) => .ok (Frame.integer v :: fs, (1 + (line.length + 2)) + k)
      else if b = 36 then
        match getLine rest with
        | none => .error .incomplete
        | some (line, after) =>
          if line = [45, 49] then
            match scanF fuel n after with
            | .error e => .error e
            | .ok (fs, k) => .ok (Frame.null :: fs, 5 + k)
          else
            match parseU64 line with
            | none => .error (.other "invalid frame format")
            | some cnt =>
              if after.length < cnt + 2 then .error .incomplete
              else if (after.drop cnt).take 2 ≠ [13, 10] then
                .error (.other "invalid frame format")
              else
                match scanF fuel n (after.drop (cnt + 2)) with
                | .error e => .error e
                | .ok (fs, k) =>
                  .ok (Frame.bulk (after.take cnt) :: fs,
                       (1 + (line.length + 2)) + ((cnt + 2) + k))
      else if b = 42 then
        match getLine rest with
        | none => .error .incomplete
        | some (line, after) =>
          match parseU64 line with
          | none => .error (.other "invalid frame format")
          | some cnt =>
            match scanF fuel cnt after with
            | .error e => .error e
            | .ok (children, k) =>
              match scanF fuel n (after.drop k) with
              | .error e => .error e
              | .ok (fs, k2) =>
                .ok (Frame.array children :: fs, (1 + (line.length + 2)) + (k + k2))
      else .error (.other "unknown sigil")

/-- Modelled from the spec: `Frame::check` (not present under src/).  Scans
the byte span for one complete well-formed frame and returns its exact end
offset, `incomplete` when the span ends too early, or a protocol error
(spec section 4.1). -/
def Frame.check (bytes : List Nat) : Except FrameError Nat :=
  (scanF (bytes.length + 1) 1 bytes).map (fun p => p.2)

/-- Modelled from the spec: `Frame::parse` (not present under src/).
Re-scans an already checked span and materialises the owned frame value
together with its end offset (spec section 4.1).  The `headD` default is
never reached: a successful scan of one frame yields a singleton list. -/
def Frame.parse (bytes : List Nat) : Except FrameError (Frame × Nat) :=
  (scanF (bytes.length + 1) 1 bytes).map (fun p => (p.1.headD Frame.null, p.2))

/-- Errors surfaced by `Connection` methods: `incomplete` (only ever an
internal frame-model condition), a protocol error with its message, and the
connection-reset error produced by `read_frame` (the source message is
"connection reset by peer"). -/
inductive ConnError where
  | incomplete
  | protocol (msg : String)
  | reset
deriving DecidableEq, Repr

/-- Conversion applied by the question-mark operator in `parse_frame` when
`Frame::parse` fails: the frame-model error is propagated as a connection
error. -/
def connErrOfFrameErr : FrameError → ConnError
  | .incomplete => .incomplete
  | .other m => .protocol m

/-- `Connection::parse_frame` (src/cmd/connection.rs lines 101 to 130) on
the logical buffer contents: run `Frame::check` over the buffered bytes; on
success take the end offset as the frame length, parse the frame, remove
exactly that many bytes from the front of the buffer and return the frame;
map `Incomplete` to a successful "no frame yet"; propagate any other error.
Returns the optional frame together with the new buffer contents. -/
def parseFrame (buf : List Nat) : Except ConnError (Option Frame × List Nat) :=
  match Frame.check buf with
  | .ok len =>
    match Frame.parse buf with
    | .ok (f, _) => .ok (some f, buf.drop len)
    | .error e => .error (connErrOfFrameErr e)
  | .error .incomplete => .ok (none, buf)
  | .error (.other m) => .error (.protocol m)

/-- One operation performed on the buffered write half of the stream: a
write of a byte sequence, or a flush. -/
inductive WEvent where
  | write (bs : List Nat)
  | flush
deriving DecidableEq, Repr

/-- Model of the buffered write half (`BufWriter<TcpStream>`) used by
`write_frame`.  `log` records the operations performed so far (successful
writes, and flush attempts), `opIdx` numbers the next operation, and
`script` injects I/O failures: operation `i` fails with message `e` when
`script.getD i none = some e`.  An empty script is a fault-free stream. -/
structure WStream where
  log : List WEvent
  opIdx : Nat
  script : List (Option String)
deriving DecidableEq, Repr

/-- The fault, if any, injected at the next operation of the stream. -/
def wFault (σ : WStream) : Option String := σ.script.getD σ.opIdx none

/-- One `write_u8` or `write_all` call: fails with the scripted error, or
appends the bytes to the log and advances the operation counter. -/
def wWrite (σ : WStream) (bs : List Nat) : Except String WStream :=
  match wFault σ with
  | some e => .error e
  | none => .ok { σ with log := σ.log ++ [.write bs], opIdx := σ.opIdx + 1 }

/-- One `flush` call: the attempt is always recorded in the log and the
operation counter advances; the first component is the I/O result of the
flush. -/
def wFlush (σ : WStream) : Except String Unit × WStream :=
  (match wFault σ with
   | some e => .error e
   | none => .ok (),
   { σ with log := σ.log ++ [.flush], opIdx := σ.opIdx + 1 })

/-- Runs a sequence of write calls, stopping at the first failing one, as
the chain of question-mark operators in `write_frame` does. -/
def wSeq : WStream → List (List Nat) → Except String WStream
  | σ, [] => .ok σ
  | σ, bs :: rest =>
    match wWrite σ bs with
    | .error e => .error e
    | .ok σ1 => wSeq σ1 rest

/-- The exact sequence of write calls `write_frame`
(src/cmd/connection.rs lines 63 to 98) issues for each variant, one list
entry per `write_u8` or `write_all` call, in source order.  `write_decimal`
is modelled from the spec (it is not present under src/) as the decimal
digits followed by CR LF.  The Array entry is unused: `write_frame` panics
on Array before writing anything. -/
def writePieces : Frame → List (List Nat)
  | .simple s => [[43], s, [13, 10]]
  | .error s => [[45], s, [13, 10]]
  | .integer n => [[58], decDigits n, [13, 10]]
  | .null => [[36, 45, 49, 13, 10]]
  | .bulk b => [[36], decDigits b.length, [13, 10], b, [13, 10]]
  | .array _ => []

/-- Number of write calls `write_frame` issues for a frame. -/
def writeCount (f : Frame) : Nat := (writePieces f).length

/-- Outcome of a `write_frame` call: normal return with the final stream
state, a propagated I/O error, or a panic (the `unimplemented!()` arm). -/
inductive WResult where
  | ok (σ : WStream)
  | err (e : String)
  | panicked
deriving DecidableEq, Repr

/-- Runs the write calls of one frame and then the single trailing flush.
The flush result is discarded, exactly as in the source, where the
`self.stream.flush().await;` statement carries no question mark: a failed
flush still yields a normal `Ok(())` return. -/
def writeRun (σ : WStream) (pieces : List (List Nat)) : WResult :=
  match wSeq σ pieces with
  | .error e => .err e
  | .ok σ1 => .ok (wFlush σ1).2

/-- `Connection::write_frame` (src/cmd/connection.rs lines 63 to 98): match
on the variant, issue its write calls with error propagation, then flush
once discarding the flush result; the Array arm is `unimplemented!()` and
panics. -/
def writeFrame (σ : WStream) (f : Frame) : WResult :=
  match f with
  | .array _ => .panicked
  | f => writeRun σ (writePieces f)

/-- The bytes handed to the transport by a log of stream operations. -/
def logBytes : List WEvent → List Nat
  | [] => []
  | .write bs :: rest => bs ++ logBytes rest
  | .flush :: rest => logBytes rest

/-- Number of flush attempts in a log of stream operations. -/
def countFlushes (log : List WEvent) : Nat :=
  (log.filter (fun ev => ev = WEvent.flush)).length

/-- The byte encoding a frame is given on the wire: the bytes written by
`write_frame` on a fresh fault-free stream, or `none` when `write_frame`
panics (the Array variant). -/
def encode (f : Frame) : Option (List Nat) :=
  match writeFrame ⟨[], 0, []⟩ f with
  | .ok σ => some (logBytes σ.log)
  | _ => none

/-- The `Connection` state from `src/cmd/connection.rs`: the receive buffer
(a `BytesMut`, modelled by its initialised byte region plus its capacity)
and the fill cursor used by `read_frame`.  The source struct declares no
`cursor` field even though `read_frame` uses one; the model supplies it,
starting at 0. -/
structure Connection where
  buffer : List Nat
  capacity : Nat
  cursor : Nat
deriving DecidableEq, Repr

/-- `Connection::new` (src/cmd/connection.rs lines 24 to 29):
`BytesMut::with_capacity(4096)` yields an empty buffer (length 0) with
capacity 4096; the fill cursor starts at 0. -/
def Connection.new : Connection := ⟨[], 4096, 0⟩

/-- `BytesMut::resize(n, 0)`: truncate to `n` bytes, or pad with zero bytes
up to length `n`, growing the capacity when the new length exceeds it. -/
def resizeTo (buf : List Nat) (n : Nat) : List Nat :=
  if n ≤ buf.length then buf.take n
  else buf ++ List.replicate (n - buf.length) 0

/-- One read from the stream into a window of `space` bytes.  The stream is
a queue of pending chunks; a read delivers at most `space` bytes from the
front chunk, leaving the rest of that chunk queued.  A zero-length window
returns zero bytes at once without touching the stream; an exhausted
stream returns zero bytes, which is how end of stream is observed. -/
def streamRead (space : Nat) (chunks : List (List Nat)) :
    List Nat × List (List Nat) :=
  if space = 0 then ([], chunks)
  else
    match chunks with
    | [] => ([], [])
    | c :: rest =>
      let t := c.take space
      let leftover := c.drop space
      (t, if leftover.isEmpty then rest else leftover :: rest)

/-- Outcome of a `read_frame` call: a frame or a clean end of stream
(with the resulting connection state and remaining stream), an error, a
panic (out-of-bounds slice), or exhaustion of the loop fuel. -/
inductive RResult where
  | ok (f : Option Frame) (conn : Connection) (chunks : List (List Nat))
  | err (e : ConnError)
  | panicked
  | outOfFuel

/-- `Connection::read_frame` (src/cmd/connection.rs lines 31 to 60), one
loop iteration per unit of fuel.  Each iteration: try `parse_frame` on the
buffer, returning a frame or an error if it produces one; if the buffer
length equals the cursor, `resize` the buffer to twice the cursor; read
from the stream into the window between the cursor and the buffer length
(a panic if the cursor exceeds the buffer length); on a zero-byte read
return clean end of stream when the cursor is 0 and the reset error
otherwise; on a non-empty read, store the bytes at the cursor and advance
the cursor by their count.  Parsing a frame removes its bytes from the
front of the buffer (`advance`), which also lowers the remaining capacity
of the `BytesMut` view; the cursor is not adjusted, as in the source. -/
def readFrame : Nat → Connection → List (List Nat) → RResult
  | 0, _, _ => .outOfFuel
  | fuel + 1, conn, chunks =>
    match parseFrame conn.buffer with
    | .error e => .err e
    | .ok (some f, buf2) =>
      .ok (some f)
        { conn with
          buffer := buf2,
          capacity := conn.capacity - (conn.buffer.length - buf2.length) }
        chunks
    | .ok (none, _) =>
      let conn1 :=
        if conn.buffer.length = conn.cursor then
          { conn with
            buffer := resizeTo conn.buffer (conn.cursor * 2),
            capacity := max conn.capacity (conn.cursor * 2) }
        else conn
      if conn1.buffer.length < conn1.cursor then .panicked
      else
        let r := streamRead (conn1.buffer.length - conn1.cursor) chunks
        if r.1.length = 0 then
          if conn1.cursor = 0 then .ok none conn1 r.2
          else .err .reset
        else
          readFrame fuel
            { conn1 with
              buffer :=
                conn1.buffer.take conn1.cursor ++ r.1 ++
                  conn1.buffer.drop (conn1.cursor + r.1.length),
              cursor := conn1.cursor + r.1.length }
            r.2

/-! ## Arithmetic and scanner lemmas -/

theorem foldl_base10 (l : List Nat) (a : Nat) :
    List.foldl (fun x d => x * 10 + d) a l =
      a * 10 ^ l.length + List.foldl (fun x d => x * 10 + d) 0 l := by
  induction l generalizing a with
  | nil => simp
  | cons d l ih =>
    simp only [List.foldl_cons, List.length_cons]
    rw [ih (a * 10 + d), ih (0 * 10 + d)]
    ring

theorem decDigitsGo_val (fuel : Nat) : ∀ n acc, n ≤ fuel →
    List.foldl (fun x d => x * 10 + d) 0 (decDigitsGo fuel n acc) =
      n * 10 ^ acc.length + List.foldl (fun x d => x * 10 + d) 0 acc := by
  induction fuel with
  | zero =>
    intro n acc hn
    interval_cases n
    simp only [decDigitsGo, List.foldl_cons]
    simp
  | succ fuel ih =>
    intro n acc hn
    by_cases h10 : n < 10
    · simp only [decDigitsGo, if_pos h10, List.foldl_cons]
      rw [foldl_base10]
      simp
    · have hdiv : n / 10 ≤ fuel := by
        have := Nat.div_lt_self (by omega : 0 < n) (by omega : 1 < 10)
        omega
      simp only [decDigitsGo, if_neg h10]
      rw [ih (n / 10) ((n % 10) :: acc) hdiv]
      simp only [List.length_cons, List.foldl_cons]
      rw [foldl_base10 acc (0 * 10 + n % 10)]
      have hn10 : n = 10 * (n / 10) + n % 10 := by omega
      conv_rhs => rw [hn10]
      ring

theorem decDigitsGo_lt (fuel : Nat) : ∀ n acc, n ≤ fuel →
    (∀ d ∈ acc, d < 10) → ∀ d ∈ decDigitsGo fuel n acc, d < 10 := by
  induction fuel with
  | zero =>
    intro n acc hn hacc
    interval_cases n
    intro d hd
    rcases List.mem_cons.mp hd with h | h
    · omega
    · exact hacc d h
  | succ fuel ih =>
    intro n acc hn hacc d hd
    by_cases h10 : n < 10
    · simp only [decDigitsGo, if_pos h10] at hd
      rcases List.mem_cons.mp hd with h | h
      · omega
      · exact hacc d h
    · have hdiv : n / 10 ≤ fuel := by
        have := Nat.div_lt_self (by omega : 0 < n) (by omega : 1 < 10)
        omega
      simp only [decDigitsGo, if_neg h10] at hd
      refine ih (n / 10) ((n % 10) :: acc) hdiv ?_ d hd
      intro d2 hd2
      rcases List.mem_cons.mp hd2 with h | h
      · have := Nat.mod_lt n (show 0 < 10 by omega)
        omega
      · exact hacc d2 h

theorem decDigitsGo_ne_nil (fuel : Nat) : ∀ n acc, decDigitsGo fuel n acc ≠ [] := by
  induction fuel with
  | zero => intro n acc; simp [decDigitsGo]
  | succ fuel ih =>
    intro n acc
    by_cases h10 : n < 10
    · simp [decDigitsGo, if_pos h10]
    · simpa [decDigitsGo, if_neg h10] using ih (n / 10) ((n % 10) :: acc)

theorem decDigits_mem (n : Nat) : ∀ d ∈ decDigits n, 48 ≤ d ∧ d ≤ 57 := by
  intro d hd
  simp only [decDigits, List.mem_map] at hd
  obtain ⟨r, hr, rfl⟩ := hd
  have := decDigitsGo_lt n n [] (Nat.le_refl n) (by simp) r hr
  omega

theorem decDigits_all (n : Nat) : (decDigits n).all isDigit = true := by
  rw [List.all_eq_true]
  intro d hd
  have := decDigits_mem n d hd
  simp [isDigit]
  omega

theorem decDigits_ne_nil (n : Nat) : decDigits n ≠ [] := by
  simp only [decDigits, ne_eq, List.map_eq_nil_iff]
  exact decDigitsGo_ne_nil n n []

theorem digitsVal_decDigits (n : Nat) : digitsVal (decDigits n) = n := by
  unfold digitsVal decDigits
  rw [List.foldl_map]
  simp only [Nat.add_sub_cancel]
  have := decDigitsGo_val n n [] (Nat.le_refl n)
  simpa using this

theorem parseU64_decDigits (n : Nat) (h : n < 2 ^ 64) :
    parseU64 (decDigits n) = some n := by
  norm_num at h
  simp [parseU64, digitsVal_decDigits, decDigits_all, decDigits_ne_nil, h]

theorem cr_not_mem_decDigits (n : Nat) : 13 ∉ decDigits n := by
  intro h
  have := decDigits_mem n 13 h
  omega

theorem decDigits_ne_neg1 (n : Nat) : decDigits n ≠ [45, 49] := by
  intro h
  have : (45 : Nat) ∈ decDigits n := by rw [h]; simp
  have := decDigits_mem n 45 this
  omega

theorem getLine_crlf (s : List Nat) (r : List Nat) (h : 13 ∉ s) :
    getLine (s ++ 13 :: 10 :: r) = some (s, r) := by
  induction s with
  | nil => simp [getLine]
  | cons a t ih =>
    have ha : a ≠ 13 := fun hc => h (hc ▸ List.mem_cons_self a t)
    have ht : 13 ∉ t := fun hc => h (List.mem_cons_of_mem a hc)
    cases t with
    | nil => simp [getLine, ha]
    | cons x t2 =>
      have hrec := ih ht
      simp only [List.cons_append] at hrec ⊢
      rw [getLine, if_neg (by simp [ha]), hrec]

theorem scanF_zero (fuel : Nat) (bytes : List Nat) :
    scanF (fuel + 1) 0 bytes = .ok ([], 0) := rfl

theorem scan_simple (fuel n : Nat) (s after : List Nat) (fs : List Frame)
    (k : Nat) (h13 : 13 ∉ s) (hc : scanF fuel n after = .ok (fs, k)) :
    scanF (fuel + 1) (n + 1) (43 :: (s ++ 13 :: 10 :: after)) =
      .ok (Frame.simple s :: fs, (1 + (s.length + 2)) + k) := by
  simp [scanF, getLine_crlf s after h13, hc]

theorem scan_error_variant (fuel n : Nat) (s after : List Nat) (fs : List Frame)
    (k : Nat) (h13 : 13 ∉ s) (hc : scanF fuel n after = .ok (fs, k)) :
    scanF (fuel + 1) (n + 1) (45 :: (s ++ 13 :: 10 :: after)) =
      .ok (Frame.error s :: fs, (1 + (s.length + 2)) + k) := by
  simp [scanF, getLine_crlf s after h13, hc]

theorem scan_integer (fuel n v : Nat) (after : List Nat) (fs : List Frame)
    (k : Nat) (hv : v < 2 ^ 64) (hc : scanF fuel n after = .ok (fs, k)) :
    scanF (fuel + 1) (n + 1) (58 :: (decDigits v ++ 13 :: 10 :: after)) =
      .ok (Frame.integer v :: fs, (1 + ((decDigits v).length + 2)) + k) := by
  simp [scanF, getLine_crlf (decDigits v) after (cr_not_mem_decDigits v),
        parseU64_decDigits v hv, hc]

theorem scan_null (fuel n : Nat) (after : List Nat) (fs : List Frame)
    (k : Nat) (hc : scanF fuel n after = .ok (fs, k)) :
    scanF (fuel + 1) (n + 1) (36 :: (45 :: 49 :: 13 :: 10 :: after)) =
      .ok (Frame.null :: fs, 5 + k) := by
  have hl : getLine ([45, 49] ++ 13 :: 10 :: after) = some ([45, 49], after) :=
    getLine_crlf [45, 49] after (by decide)
  simp only [List.cons_append, List.nil_append] at hl
  simp [scanF, hl, hc]

theorem scan_bulk (fuel n : Nat) (b after : List Nat) (fs : List Frame)
    (k : Nat) (hb : b.length < 2 ^ 64) (hc : scanF fuel n after = .ok (fs, k)) :
    scanF (fuel + 1) (n + 1)
        (36 :: (decDigits b.length ++ 13 :: 10 :: (b ++ 13 :: 10 :: after))) =
      .ok (Frame.bulk b :: fs,
           (1 + ((decDigits b.length).length + 2)) + ((b.length + 2) + k)) := by
  have hsplit : b ++ 13 :: 10 :: after = (b ++ [13, 10]) ++ after := by simp
  have hlen2 : (b ++ [13, 10]).length = b.length + 2 := by simp
  have hdrop : (b ++ 13 :: 10 :: after).drop (b.length + 2) = after := by
    rw [hsplit, ← hlen2, List.drop_left]
  have hdropb : (b ++ 13 :: 10 :: after).drop b.length = 13 :: 10 :: after := by
    rw [List.drop_left]
  have htake : (b ++ 13 :: 10 :: after).take b.length = b := by
    rw [List.take_left]
  have hlenge : ¬ ((b ++ 13 :: 10 :: after).length < b.length + 2) := by
    simp
  simp [scanF, getLine_crlf (decDigits b.length) _ (cr_not_mem_decDigits b.length),
        decDigits_ne_neg1 b.length, parseU64_decDigits b.length hb,
        hlenge, hdropb, hdrop, htake, hc]

theorem parseFrame_of_scan (bytes : List Nat) (f : Frame) (k : Nat)
    (h : scanF (bytes.length + 1) 1 bytes = .ok ([f], k))
    (hk : k = bytes.length) :
    parseFrame bytes = .ok (some f, []) := by
  subst hk
  simp [parseFrame, Frame.check, Frame.parse, Except.map, h, List.drop_length]

theorem parse_enc_simple (s : List Nat) (h13 : 13 ∉ s) :
    parseFrame (43 :: (s ++ [13, 10])) = .ok (some (Frame.simple s), []) := by
  have hlen : (43 :: (s ++ [13, 10])).length = s.length + 3 := by simp
  refine parseFrame_of_scan _ _ ((1 + (s.length + 2)) + 0) ?_ (by simp; omega)
  rw [hlen]
  exact scan_simple (s.length + 3) 0 s [] [] 0 h13 (scanF_zero (s.length + 2) [])

theorem parse_enc_error (s : List Nat) (h13 : 13 ∉ s) :
    parseFrame (45 :: (s ++ [13, 10])) = .ok (some (Frame.error s), []) := by
  have hlen : (45 :: (s ++ [13, 10])).length = s.length + 3 := by simp
  refine parseFrame_of_scan _ _ ((1 + (s.length + 2)) + 0) ?_ (by simp; omega)
  rw [hlen]
  exact scan_error_variant (s.length + 3) 0 s [] [] 0 h13 (scanF_zero (s.length + 2) [])

theorem parse_enc_integer (v : Nat) (hv : v < 2 ^ 64) :
    parseFrame (58 :: (decDigits v ++ [13, 10])) = .ok (some (Frame.integer v), []) := by
  have hlen : (58 :: (decDigits v ++ [13, 10])).length = (decDigits v).length + 3 := by
    simp
  refine parseFrame_of_scan _ _ ((1 + ((decDigits v).length + 2)) + 0) ?_ (by simp; omega)
  rw [hlen]
  exact scan_integer ((decDigits v).length + 3) 0 v [] [] 0 hv
    (scanF_zero ((decDigits v).length + 2) [])

theorem parse_enc_null : parseFrame [36, 45, 49, 13, 10] = .ok (some Frame.null, []) := rfl

theorem parse_enc_bulk (b : List Nat) (hb : b.length < 2 ^ 64) :
    parseFrame (36 :: (decDigits b.length ++ (13 :: 10 :: (b ++ [13, 10])))) =
      .ok (some (Frame.bulk b), []) := by
  have hlen : (36 :: (decDigits b.length ++ (13 :: 10 :: (b ++ [13, 10])))).length =
      (decDigits b.length).length + b.length + 5 := by
    simp
    omega
  refine parseFrame_of_scan _ _
    ((1 + ((decDigits b.length).length + 2)) + ((b.length + 2) + 0)) ?_ (by simp; omega)
  rw [hlen]
  have := scan_bulk ((decDigits b.length).length + b.length + 4) 0 b [] [] 0 hb
    (scanF_zero ((decDigits b.length).length + b.length + 3) [])
  exact this

/-! ## Write-path lemmas -/

theorem encode_simple (s : List Nat) :
    encode (Frame.simple s) = some (43 :: (s ++ [13, 10])) := by
  simp [encode, writeFrame, writeRun, writePieces, wSeq, wWrite, wFault, wFlush,
        logBytes, List.getD]

theorem encode_error (s : List Nat) :
    encode (Frame.error s) = some (45 :: (s ++ [13, 10])) := by
  simp [encode, writeFrame, writeRun, writePieces, wSeq, wWrite, wFault, wFlush,
        logBytes, List.getD]

theorem encode_integer (n : Nat) :
    encode (Frame.integer n) = some (58 :: (decDigits n ++ [13, 10])) := by
  simp [encode, writeFrame, writeRun, writePieces, wSeq, wWrite, wFault, wFlush,
        logBytes, List.getD]

theorem encode_null : encode Frame.null = some [36, 45, 49, 13, 10] := rfl

theorem encode_bulk (b : List Nat) :
    encode (Frame.bulk b) =
      some (36 :: (decDigits b.length ++ (13 :: 10 :: (b ++ [13, 10])))) := by
  simp [encode, writeFrame, writeRun, writePieces, wSeq, wWrite, wFault, wFlush,
        logBytes, List.getD]

theorem encode_array (elems : List Frame) : encode (Frame.array elems) = none := rfl

theorem writeFrame_not_array (σ : WStream) (f : Frame) (h : f.isArray = false) :
    writeFrame σ f = writeRun σ (writePieces f) := by
  cases f <;> simp_all [writeFrame, Frame.isArray]

theorem wSeq_ok_spec (ps : List (List Nat)) : ∀ σ σ', wSeq σ ps = .ok σ' →
    σ'.log = σ.log ++ ps.map WEvent.write ∧ σ'.opIdx = σ.opIdx + ps.length ∧
      σ'.script = σ.script := by
  induction ps with
  | nil =>
    intro σ σ' h
    simp only [wSeq] at h
    cases h
    simp
  | cons bs ps ih =>
    intro σ σ' h
    simp only [wSeq, wWrite] at h
    cases hf : wFault σ with
    | some e => rw [hf] at h; cases h
    | none =>
      rw [hf] at h
      obtain ⟨h1, h2, h3⟩ := ih _ _ h
      refine ⟨?_, ?_, ?_⟩
      · simp at h1; simp [h1]
      · simp only [List.length_cons]; simp at h2; omega
      · simpa using h3

theorem wSeq_err_spec (ps : List (List Nat)) : ∀ σ e, wSeq σ ps = .error e →
    ∃ i, σ.script.getD i none = some e := by
  induction ps with
  | nil => intro σ e h; simp [wSeq] at h
  | cons bs ps ih =>
    intro σ e h
    simp only [wSeq, wWrite] at h
    cases hf : wFault σ with
    | some e0 =>
      rw [hf] at h
      cases h
      exact ⟨σ.opIdx, hf⟩
    | none =>
      rw [hf] at h
      obtain ⟨i, hi⟩ := ih _ _ h
      exact ⟨i, by simpa using hi⟩

theorem wSeq_total_spec (ps : List (List Nat)) : ∀ σ,
    (∀ i, i < ps.length → σ.script.getD (σ.opIdx + i) none = none) →
    ∃ σ', wSeq σ ps = .ok σ' := by
  induction ps with
  | nil => intro σ _; exact ⟨σ, rfl⟩
  | cons bs ps ih =>
    intro σ h
    have hf : wFault σ = none := by
      have := h 0 (by simp)
      simpa [wFault] using this
    obtain ⟨σ', hσ'⟩ := ih { σ with log := σ.log ++ [.write bs], opIdx := σ.opIdx + 1 }
      (by
        intro i hi
        have := h (i + 1) (by simp; omega)
        simpa [Nat.add_assoc, Nat.add_comm 1 i] using this)
    exact ⟨σ', by simp [wSeq, wWrite, hf, hσ']⟩

theorem writeRun_ok_log (σ : WStream) (ps : List (List Nat)) (σ' : WStream)
    (h : writeRun σ ps = .ok σ') :
    σ'.log = σ.log ++ ps.map WEvent.write ++ [WEvent.flush] := by
  unfold writeRun at h
  cases hs : wSeq σ ps with
  | error e => rw [hs] at h; cases h
  | ok σ1 =>
    rw [hs] at h
    cases h
    obtain ⟨h1, _, _⟩ := wSeq_ok_spec ps σ σ1 hs
    simp [wFlush, h1]

theorem writeRun_err (σ : WStream) (ps : List (List Nat)) (e : String)
    (h : writeRun σ ps = .err e) : ∃ i, σ.script.getD i none = some e := by
  unfold writeRun at h
  cases hs : wSeq σ ps with
  | error e0 =>
    rw [hs] at h
    cases h
    exact wSeq_err_spec ps σ e hs
  | ok σ1 => rw [hs] at h; cases h

theorem writeRun_total (σ : WStream) (ps : List (List Nat))
    (h : ∀ i, i < ps.length → σ.script.getD (σ.opIdx + i) none = none) :
    ∃ σ', writeRun σ ps = .ok σ' := by
  obtain ⟨σ1, h1⟩ := wSeq_total_spec ps σ h
  exact ⟨(wFlush σ1).2, by simp [writeRun, h1]⟩

theorem writeRun_ne_panicked (σ : WStream) (ps : List (List Nat)) :
    writeRun σ ps ≠ .panicked := by
  unfold writeRun
  cases wSeq σ ps <;> simp

theorem countFlushes_append (l m : List WEvent) :
    countFlushes (l ++ m) = countFlushes l + countFlushes m := by
  simp [countFlushes, List.filter_append]

theorem countFlushes_writes (ps : List (List Nat)) :
    countFlushes (ps.map WEvent.write) = 0 := by
  induction ps with
  | nil => rfl
  | cons bs ps ih => simp [countFlushes, List.filter]

/-! ## Read-path lemmas -/

theorem readFrame_new_dead (fuel : Nat) (chunks : List (List Nat)) :
    readFrame (fuel + 1) Connection.new chunks = .ok none Connection.new chunks := rfl

/-! ## Claim theorems -/

/-- C1, counterexample to the claim as stated: `write_frame` does not
serialize an Array value; at the concrete input `Array [Null]` on a
fault-free stream it panics (the `unimplemented!()` arm). -/
theorem c1_array_write_counterexample :
    writeFrame ⟨[], 0, []⟩ (Frame.array [Frame.null]) = .panicked := rfl

/-- C1, amended: for every Array frame and every stream state,
`write_frame` panics via `unimplemented!()` before performing any stream
operation; it never panics on any non-Array variant. -/
theorem c1_array_write_refused :
    (∀ elems σ, writeFrame σ (Frame.array elems) = WResult.panicked) ∧
    (∀ f σ, f.isArray = false → writeFrame σ f ≠ WResult.panicked) := by
  constructor
  · intro elems σ; rfl
  · intro f σ h
    rw [writeFrame_not_array σ f h]
    exact writeRun_ne_panicked σ (writePieces f)

/-- C1, witness: the amended statement evaluated at `Array []` and at
`Null` on a fresh fault-free stream. -/
theorem c1_array_write_refused_witness :
    writeFrame ⟨[], 0, []⟩ (Frame.array []) = WResult.panicked ∧
    writeFrame ⟨[], 0, []⟩ Frame.null ≠ WResult.panicked :=
  ⟨c1_array_write_refused.1 [] ⟨[], 0, []⟩,
   c1_array_write_refused.2 Frame.null ⟨[], 0, []⟩ rfl⟩

/-- C2, counterexample to the claim as stated: the round trip cannot hold
for the Array variant, because `write_frame` panics on Array input and
produces no bytes at all; at the concrete input `Array [Integer 0]` the
encoding is `none`. -/
theorem c2_roundtrip_counterexample : encode (Frame.array [Frame.integer 0]) = none := rfl

/-- C2, amended: for every Frame of variant Simple, Error, Integer, Bulk or
Null satisfying the data-model invariant (Simple and Error text free of CR
and LF, numeric payloads below `2 ^ 64`), encoding it with `write_frame`
and decoding the produced bytes with the read path (`parse_frame`) yields
the original frame and consumes the buffer exactly; the Array variant is
excluded because `write_frame` panics on it. -/
theorem c2_roundtrip_no_array (f : Frame) (hwf : frameWF f = true)
    (harr : f.isArray = false) :
    ∃ bs, encode f = some bs ∧ parseFrame bs = .ok (some f, []) := by
  cases f with
  | simple s =>
    simp only [frameWF, Bool.and_eq_true, decide_eq_true_eq] at hwf
    exact ⟨_, encode_simple s, parse_enc_simple s hwf.1⟩
  | error s =>
    simp only [frameWF, Bool.and_eq_true, decide_eq_true_eq] at hwf
    exact ⟨_, encode_error s, parse_enc_error s hwf.1⟩
  | integer n =>
    simp only [frameWF, decide_eq_true_eq] at hwf
    exact ⟨_, encode_integer n, parse_enc_integer n hwf⟩
  | bulk b =>
    simp only [frameWF, decide_eq_true_eq] at hwf
    exact ⟨_, encode_bulk b, parse_enc_bulk b hwf⟩
  | null => exact ⟨_, encode_null, parse_enc_null⟩
  | array elems => simp [Frame.isArray] at harr

/-- C2, witness: the amended round trip evaluated at `Simple "OK"`. -/
theorem c2_roundtrip_witness :
    ∃ bs, encode (Frame.simple [79, 75]) = some bs ∧
      parseFrame bs = .ok (some (Frame.simple [79, 75]), []) :=
  c2_roundtrip_no_array (Frame.simple [79, 75]) (by decide) rfl

/-- C3, code bug: the bytes of `Simple "OK"` form one complete well-formed
frame, yet `read_frame` on a fresh connection given exactly that chunk
returns clean end of stream without consuming anything: the buffer starts
at length 0 and the grow arm resizes it to twice the cursor (still 0), so
the read window is always empty, every stream read returns zero bytes, and
no frame can ever be returned. -/
theorem c3_fragmentation_code_bug :
    Frame.parse [43, 79, 75, 13, 10] = .ok (Frame.simple [79, 75], 5) ∧
    readFrame 1 Connection.new [[43, 79, 75, 13, 10]] =
      .ok none Connection.new [[43, 79, 75, 13, 10]] := ⟨rfl, rfl⟩

/-- C4, code bug: the bytes `$5\r\nhel` are a strict prefix of a frame
(`check` reports Incomplete), yet `read_frame` on a fresh connection
returns clean end of stream instead of the connection-reset error: the
partial bytes are never buffered (the read window is empty), the cursor
stays 0, so the zero-byte read is taken for a clean close. -/
theorem c4_eof_after_partial_code_bug :
    Frame.check [36, 53, 13, 10, 104, 101, 108] = .error .incomplete ∧
    readFrame 2 Connection.new [[36, 53, 13, 10, 104, 101, 108]] =
      .ok none Connection.new [[36, 53, 13, 10, 104, 101, 108]] := ⟨rfl, rfl⟩

/-- C5, counterexample to the claim as stated: with a fault injected at the
flush operation (index 1 for a Null frame), `write_frame` still returns
success: the flush error is discarded, not propagated, because the source
statement `self.stream.flush().await;` carries no question mark. -/
theorem c5_flush_error_counterexample :
    writeFrame ⟨[], 0, [none, some "flush failed"]⟩ Frame.null =
      .ok ⟨[WEvent.write [36, 45, 49, 13, 10], WEvent.flush], 2,
           [none, some "flush failed"]⟩ := rfl

/-- C5, amended: for every non-Array frame, `write_frame` attempts exactly
one flush, as its final stream operation, before returning success; every
I/O error arising from the write calls is propagated unchanged to the
caller; but an error arising from the flush call is discarded, and whenever
all write operations succeed, `write_frame` returns success regardless of
any fault scripted at the flush operation. -/
theorem c5_flush_error_swallowed (f : Frame) (σ : WStream)
    (h : f.isArray = false) :
    (∀ σ', writeFrame σ f = .ok σ' →
        countFlushes σ'.log = countFlushes σ.log + 1 ∧
        σ'.log.getLast? = some WEvent.flush) ∧
    (∀ e, writeFrame σ f = .err e → ∃ i, σ.script.getD i none = some e) ∧
    ((∀ i, i < writeCount f → σ.script.getD (σ.opIdx + i) none = none) →
        ∃ σ', writeFrame σ f = .ok σ') := by
  rw [writeFrame_not_array σ f h]
  refine ⟨?_, ?_, ?_⟩
  · intro σ' hok
    have hl := writeRun_ok_log σ (writePieces f) σ' hok
    constructor
    · rw [hl, countFlushes_append, countFlushes_append, countFlushes_writes]
      rfl
    · rw [hl, List.getLast?_concat]
  · intro e he
    exact writeRun_err σ (writePieces f) e he
  · intro hfree
    exact writeRun_total σ (writePieces f) hfree

/-- C5, witness: the amended statement evaluated at `Null` with a fault
scripted only at the flush operation: the single write succeeds, so
`write_frame` returns success even though the flush fails. -/
theorem c5_flush_error_swallowed_witness :
    ∃ σ', writeFrame ⟨[], 0, [none, some "flush failed"]⟩ Frame.null = .ok σ' :=
  (c5_flush_error_swallowed Frame.null ⟨[], 0, [none, some "flush failed"]⟩
    rfl).2.2 (by decide)

/-- C6: on a fault-free stream `write_frame` emits exactly the prescribed
bytes: Simple as `+`, text, CR LF; Error as `-`, text, CR LF; Null as the
five bytes `$-1` CR LF; Bulk as `$`, decimal length, CR LF, payload,
CR LF. -/
theorem c6_write_frame_bytes (s t b : List Nat) :
    encode (Frame.simple s) = some (43 :: (s ++ [13, 10])) ∧
    encode (Frame.error t) = some (45 :: (t ++ [13, 10])) ∧
    encode Frame.null = some [36, 45, 49, 13, 10] ∧
    encode (Frame.bulk b) =
      some (36 :: (decDigits b.length ++ (13 :: 10 :: (b ++ [13, 10])))) :=
  ⟨encode_simple s, encode_error t, encode_null, encode_bulk b⟩

/-- C7, code bug: the connection starts with capacity 4096, and after a
`read_frame` call against a stream holding 5000 pending bytes the
connection state is unchanged: capacity still 4096, buffer still empty,
nothing consumed.  The grow arm compares the cursor with the buffer length
(not the capacity) and resizes to twice the cursor, which is 0, so the
capacity never doubles and no frame of any size can ever be read. -/
theorem c7_capacity_never_grows :
    Connection.new.capacity = 4096 ∧
    readFrame 1 Connection.new [List.replicate 5000 43] =
      .ok none Connection.new [List.replicate 5000 43] := ⟨rfl, rfl⟩

/-- C8: whenever `parse_frame` finds a complete frame, the bytes removed
from the buffer are exactly the end offset reported by `check`, taken from
the front, and the remaining bytes are the untouched suffix in order. -/
theorem c8_parse_frame_removes_exact_bytes (buf : List Nat) (f : Frame)
    (buf2 : List Nat) (h : parseFrame buf = .ok (some f, buf2)) :
    ∃ off, Frame.check buf = .ok off ∧ buf2 = buf.drop off ∧
      buf = buf.take off ++ buf2 := by
  unfold parseFrame at h
  cases hc : Frame.check buf with
  | ok len =>
    rw [hc] at h
    cases hp : Frame.parse buf with
    | ok fp =>
      obtain ⟨g, p⟩ := fp
      rw [hp] at h
      simp only [Except.ok.injEq, Prod.mk.injEq, Option.some.injEq] at h
      refine ⟨len, rfl, h.2.symm, ?_⟩
      rw [← h.2]
      exact (List.take_append_drop len buf).symm
    | error e =>
      rw [hp] at h
      simp at h
  | error e =>
    cases e with
    | incomplete => rw [hc] at h; simp at h
    | other m => rw [hc] at h; simp at h

/-- C8, witness: the theorem evaluated at the buffer holding exactly the
encoding of `Simple "OK"`. -/
theorem c8_parse_frame_removes_exact_bytes_witness :
    ∃ off, Frame.check [43, 79, 75, 13, 10] = .ok off ∧
      ([] : List Nat) = [43, 79, 75, 13, 10].drop off ∧
      [43, 79, 75, 13, 10] = [43, 79, 75, 13, 10].take off ++ ([] : List Nat) :=
  c8_parse_frame_removes_exact_bytes [43, 79, 75, 13, 10]
    (Frame.simple [79, 75]) [] rfl

/-- C9: whenever `check` reports Incomplete, `parse_frame` returns "no
frame yet" with the buffer untouched, not an error; and no `read_frame`
call on a fresh connection ever returns an Incomplete error. -/
theorem c9_incomplete_never_surfaced :
    (∀ buf, Frame.check buf = .error .incomplete →
        parseFrame buf = .ok (none, buf)) ∧
    (∀ fuel chunks, readFrame fuel Connection.new chunks ≠ .err .incomplete) := by
  constructor
  · intro buf h
    simp [parseFrame, h]
  · intro fuel chunks
    cases fuel with
    | zero => intro hh; exact RResult.noConfusion hh
    | succ fuel =>
      rw [readFrame_new_dead]
      intro hh
      exact RResult.noConfusion hh

/-- C9, witness: the buffer holding the single byte `+` is an incomplete
frame, and `parse_frame` maps it to a successful "no frame yet". -/
theorem c9_incomplete_never_surfaced_witness :
    Frame.check [43] = .error .incomplete ∧ parseFrame [43] = .ok (none, [43]) :=
  ⟨rfl, c9_incomplete_never_surfaced.1 [43] rfl⟩

/-- C10: `Connection::new` produces a connection whose receive buffer is
empty (logical length zero) with capacity exactly 4096. -/
theorem c10_new_connection_state :
    Connection.new.buffer = [] ∧ Connection.new.buffer.length = 0 ∧
    Connection.new.capacity = 4096 := ⟨rfl, rfl, rfl⟩
